import Mathlib

/-!
# Verification of the iFood financial-analysis core

Shallow embedding of the repository's core logic:
* `src/lib/utils.ts` — locale-aware numeric normalisation (`normalizeNumber`),
  metrics calculation (`calculateMetrics`), form validation (`validateFormData`);
* `src/lib/data.ts` — the dual-backend persistence gateway (Supabase remote
  store with localStorage fallback) and the local-to-remote sync utility.

JavaScript numbers are modelled by `JSNum`: either a finite value, carried as
an exact rational, or one of the non-finite values `NaN`, `Infinity`,
`-Infinity`.  Arithmetic in the metrics engine only ever happens on finite
values in the claims considered, so finite arithmetic is exact rational
arithmetic.  (Float rounding is abstracted away; every concrete value appearing
in the spec's examples is exactly representable.)
-/

/-- Model of a JavaScript number: finite (exact rational) or one of the
non-finite values. -/
inductive JSNum where
  | nan : JSNum
  | inf : JSNum
  | ninf : JSNum
  | fin (q : ℚ) : JSNum
deriving DecidableEq, Repr

/-- Composite effect of the two cleaning regex replaces in `normalizeNumber`
(`.replace(/[R$\s]/g,"")` then `.replace(/[^\d.,-]/g,"")`, after `trim()`):
since `R`, `$` and all whitespace are themselves outside `[\d.,-]`, the
composition keeps exactly the digits, `.`, `,` and `-`. -/
def cleanChars (l : List Char) : List Char :=
  l.filter (fun c => c.isDigit || c == '.' || c == ',' || c == '-')

/-- JS `String.prototype.replace(",", ".")`: replaces only the first comma. -/
def replaceFirstComma : List Char → List Char
  | [] => []
  | c :: cs => if c = ',' then '.' :: cs else c :: replaceFirstComma cs

/-- JS `String.prototype.replace('.', '')`: removes only the first dot. -/
def removeFirstDot : List Char → List Char
  | [] => []
  | c :: cs => if c = '.' then cs else c :: removeFirstDot cs

/-- The part after the first `.`, i.e. `clean.split('.')[1]` when the string
contains exactly one dot. -/
def afterFirstDot (l : List Char) : List Char :=
  (l.dropWhile (fun c => c != '.')).drop 1

/-- The separator-disambiguation step of `normalizeNumber`
(`src/lib/utils.ts` lines 26-50), applied to the cleaned character list. -/
def separatorFix (l : List Char) : List Char :=
  if ',' ∈ l ∧ '.' ∈ l then
    -- both separators: strip every dot, first comma becomes the decimal point
    replaceFirstComma (l.filter (fun c => c != '.'))
  else if ',' ∈ l then
    -- only comma: it is the decimal separator
    replaceFirstComma l
  else if '.' ∈ l then
    if 1 < l.count '.' then
      -- multiple dots: all are thousands separators
      l.filter (fun c => c != '.')
    else
      -- exactly one dot: `parts[1] && parts[1].length === 3 && !parts[1].includes(',')`
      if ¬ afterFirstDot l = [] ∧ (afterFirstDot l).length = 3 ∧ ¬ ',' ∈ afterFirstDot l
      then removeFirstDot l else l
  else l

/-- Numeric value of a digit run. -/
def digitsToNat (l : List Char) : Nat :=
  l.foldl (fun n c => 10 * n + (c.toNat - '0'.toNat)) 0

/-- Model of JS `parseFloat` restricted to the alphabet produced by the
cleaning step (digits, `.`, `,`, `-`): an optional leading `-`, then the
longest prefix `digits* ['.' digits*]`; `NaN` when that prefix contains no
digit at all.  (The exponent syntax and the `Infinity` literal use letters,
which the cleaning step removes, so they cannot occur here; overflow of huge
digit strings to `Infinity` is a float artefact abstracted away by the exact
rational model — the finiteness guard below covers both cases either way.) -/
def parseFloatJS (l : List Char) : JSNum :=
  let p : Int × List Char := match l with
    | '-' :: rest => (-1, rest)
    | _ => (1, l)
  let ip := p.2.takeWhile Char.isDigit
  let r1 := p.2.dropWhile Char.isDigit
  let fp := match r1 with
    | '.' :: r2 => r2.takeWhile Char.isDigit
    | _ => []
  if ip = [] ∧ fp = [] then JSNum.nan
  else JSNum.fin (Rat.divInt (p.1 * (digitsToNat ip * 10 ^ fp.length + digitsToNat fp : Nat)) (10 ^ fp.length : Nat))

/-- The final `Number.isFinite(n) ? n : 0` guard of `normalizeNumber`. -/
def finiteGuard (n : JSNum) : JSNum :=
  match n with
  | JSNum.fin q => JSNum.fin q
  | _ => JSNum.fin 0

/-- `normalizeNumber` (`src/lib/utils.ts` lines 16-54).  The input is either a
string or an already-numeric value (`string | number`); a numeric input is
returned unchanged by the `typeof value === "number"` early return.  For a
string, the only falsy value is `""` (the `if (!value) return 0` check); then
cleaning, separator disambiguation, `parseFloat` and the finiteness guard. -/
def normalizeNumber : String ⊕ JSNum → JSNum
  | Sum.inr x => x
  | Sum.inl s =>
    if s = "" then JSNum.fin 0
    else finiteGuard (parseFloatJS (separatorFix (cleanChars s.data)))

/-- The separator policy exactly as the claim words it; it differs from the
source only in the single-dot clause, where the claim requires the part after
the dot to consist of exactly 3 *digits* while the source tests that
`parts[1]` has *length* 3 (a `-` retained by the cleaning step counts towards
that length but is not a digit). -/
def claimedPolicy (s : String) : JSNum :=
  if s = "" then JSNum.fin 0
  else
    let l := cleanChars s.data
    let l2 :=
      if ',' ∈ l ∧ '.' ∈ l then (l.filter (fun c => c != '.')).map (fun c => if c = ',' then '.' else c)
      else if ',' ∈ l then l.map (fun c => if c = ',' then '.' else c)
      else if '.' ∈ l then
        if 1 < l.count '.' then l.filter (fun c => c != '.')
        else if (afterFirstDot l).countP (fun c => c.isDigit) = 3 then removeFirstDot l else l
      else l
    finiteGuard (parseFloatJS l2)

/-!
## Metrics engine (`src/lib/utils.ts` lines 73-113)

A `FormData` numeric field is modelled as `Option ℚ`: `some q` when the
runtime coercion `Number(x)` yields the finite value `q`, `none` when it
yields `NaN` (absent or non-numeric field).  `Number(x) || 0` is then
`coerce`: `NaN` and `0` are both falsy and coerce to `0`.
-/

structure FormData where
  vbv : Option ℚ
  valoresPagosCliente : Option ℚ
  vrl : Option ℚ
  vrlj : Option ℚ
  additionalValues : List (String × ℚ)
  periodo : String
  tenantId : String
deriving DecidableEq, Repr

/-- The defensive coercion `Number(data.f) || 0` applied to every numeric
field before computing. -/
def coerce (x : Option ℚ) : ℚ := x.getD 0

structure CalculatedData where
  rbr : ℚ
  rol : ℚ
  rentabilidadeLiquida : ℚ
  retencaoIfoodPercentual : ℚ
  valorRetidoIfood : ℚ
deriving DecidableEq, Repr

/-- `calculateMetrics` (`src/lib/utils.ts` lines 73-92). -/
def calculateMetrics (data : FormData) : CalculatedData :=
  let vbv := coerce data.vbv
  let valoresPagosCliente := coerce data.valoresPagosCliente
  let vrl := coerce data.vrl
  let vrlj := coerce data.vrlj
  let rbr := vbv - valoresPagosCliente
  let rol := vrl + vrlj
  let rentabilidadeLiquida := if rbr > 0 then rol / rbr * 100 else 0
  let retencaoIfoodPercentual := 100 - rentabilidadeLiquida
  let valorRetidoIfood := rbr - rol
  ⟨rbr, rol, rentabilidadeLiquida, retencaoIfoodPercentual, valorRetidoIfood⟩

structure VError where
  field : String
  message : String
deriving DecidableEq, Repr

structure ValidationResult where
  isValid : Bool
  errors : List VError
  warnings : List String
deriving DecidableEq, Repr

/-- `validateFormData` (`src/lib/utils.ts` lines 95-113).  The three error
pushes and the single warning push are modelled by appending the
corresponding singleton lists in source order. -/
def validateFormData (data : FormData) : ValidationResult :=
  let vbv := coerce data.vbv
  let vpc := coerce data.valoresPagosCliente
  let vrl := coerce data.vrl
  let vrlj := coerce data.vrlj
  let rbr := vbv - vpc
  let rol := vrl + vrlj
  let errors :=
    (if vbv ≤ 0 then [VError.mk "vbv" "VBV deve ser maior que zero."] else []) ++
    (if vpc < 0 then [VError.mk "valoresPagosCliente" "Valores pagos pelo cliente não pode ser negativo."] else []) ++
    (if rbr ≤ 0 then [VError.mk "base" "Receita Bruta Real (VBV - valores pagos) deve ser positiva."] else [])
  let warnings := if rol > rbr then ["ROL maior do que a Receita Bruta Real. Revise os números."] else []
  ⟨errors.length == 0, errors, warnings⟩

/-- The error list of `validateFormData`, exhibited as a function of the two
fields the three error conditions read (`vbv` and `valoresPagosCliente`
coerced); definitionally equal to `(validateFormData data).errors`. -/
def valErrors (vbv vpc : ℚ) : List VError :=
  (if vbv ≤ 0 then [VError.mk "vbv" "VBV deve ser maior que zero."] else []) ++
  (if vpc < 0 then [VError.mk "valoresPagosCliente" "Valores pagos pelo cliente não pode ser negativo."] else []) ++
  (if vbv - vpc ≤ 0 then [VError.mk "base" "Receita Bruta Real (VBV - valores pagos) deve ser positiva."] else [])

/-!
## Persistence gateway (`src/lib/data.ts`)

The observable store comprises the two remote tables (`historicodeanalise`
and `Usuario`, with snake_case columns) and the localStorage keys the module
uses (`ifood-user`, and `ifood-analyses-{tenantId}` — the latter modelled as
a total map from tenant id to the stored list, absent key = `[]`, JSON
round-tripping assumed faithful).

Each call's environment is an `Env`: whether a browser window exists, whether
both Supabase settings are configured, and whether the remote call, when
attempted, succeeds (`remoteOk` is the per-call network/query oracle; a
failed remote call is caught and logged in the source, routing to the
fallback).  The remote auth session touched by `logout`/`getCurrentUser`
belongs to the external auth collaborator and is not part of this store.

The read operations (`getCurrentUser`, `loadAnalyses`, `getAnalysisByPeriod`,
`getAnalysesByUser`) perform no writes in the source, so only the mutating
operations appear in `GatewayOp`.
-/

structure User where
  id : String
  email : String
  name : String
  tenantId : String
  role : String
  createdAt : String
deriving DecidableEq, Repr

structure AnalysisData where
  id : String
  userId : String
  tenantId : String
  formData : FormData
  calculatedData : CalculatedData
  timestamp : String
deriving DecidableEq, Repr

/-- A row of the remote `historicodeanalise` table (snake_case columns). -/
structure AnalysisRow where
  id : String
  user_id : String
  tenant_id : String
  form_data : FormData
  calculated_data : CalculatedData
  timestamp : String
deriving DecidableEq, Repr

/-- A row of the remote `Usuario` table (snake_case columns). -/
structure UserRow where
  id : String
  email : String
  name : String
  tenant_id : String
  role : String
  created_at : String
deriving DecidableEq, Repr

/-- camelCase → snake_case column mapping used by the insert/upsert calls. -/
def AnalysisData.toRow (a : AnalysisData) : AnalysisRow :=
  ⟨a.id, a.userId, a.tenantId, a.formData, a.calculatedData, a.timestamp⟩

/-- snake_case → camelCase mapping applied by `loadAnalyses` to query rows. -/
def AnalysisRow.toData (r : AnalysisRow) : AnalysisData :=
  ⟨r.id, r.user_id, r.tenant_id, r.form_data, r.calculated_data, r.timestamp⟩

/-- camelCase → snake_case mapping used by `saveUser`'s upsert. -/
def User.toRow (u : User) : UserRow :=
  ⟨u.id, u.email, u.name, u.tenantId, u.role, u.createdAt⟩

/-- Per-call environment (see the section comment). -/
structure Env where
  hasWindow : Bool
  configured : Bool
  remoteOk : Bool
deriving DecidableEq, Repr

/-- `isSupabaseAvailable` (`src/lib/data.ts` lines 14-21): a window exists and
both the service URL and the anon key are configured. -/
def Env.isSupabaseAvailable (e : Env) : Bool := e.hasWindow && e.configured

/-- The remote branch of an operation actually commits iff Supabase is
available and the attempted call succeeds. -/
def Env.remoteActive (e : Env) : Bool := e.isSupabaseAvailable && e.remoteOk

structure Store where
  remote : List AnalysisRow
  remoteUsers : List UserRow
  localUser : Option User
  localAnalyses : String → List AnalysisData

/-- The localStorage key for a tenant's analysis list:
`` `ifood-analyses-${tenantId}` ``. -/
def analysesKey (tenantId : String) : String := "ifood-analyses-" ++ tenantId

def initStore : Store := ⟨[], [], none, fun _ => []⟩

/-- Postgres-style upsert with conflict target `id`: replace the matching
row(s) in place, else append. -/
def upsertAnalysisRow (rows : List AnalysisRow) (r : AnalysisRow) : List AnalysisRow :=
  if rows.any (fun x => x.id == r.id) then rows.map (fun x => if x.id = r.id then r else x)
  else rows ++ [r]

/-- Upsert on the `Usuario` table, conflict target `id`. -/
def upsertUserRow (rows : List UserRow) (r : UserRow) : List UserRow :=
  if rows.any (fun x => x.id == r.id) then rows.map (fun x => if x.id = r.id then r else x)
  else rows ++ [r]

/-- `saveUser` (`src/lib/data.ts` lines 77-112): no-op outside a browser;
remote upsert keyed on `id`, mirroring to the local cache on success;
otherwise the localStorage fallback write. -/
def saveUser (env : Env) (user : User) (s : Store) : Store :=
  if env.hasWindow = false then s
  else if env.remoteActive then
    { s with remoteUsers := upsertUserRow s.remoteUsers user.toRow, localUser := some user }
  else { s with localUser := some user }

/-- `logout` (`src/lib/data.ts` lines 117-133): the remote `signOut` touches
only the external auth session; the local cached user is always cleared. -/
def logout (env : Env) (s : Store) : Store :=
  if env.hasWindow = false then s else { s with localUser := none }

/-- `saveAnalysis` (`src/lib/data.ts` lines 142-176): remote insert (append-only,
never upsert) and, on success, immediate return — no local mirror; on
failure or unavailability, append to the tenant-scoped local list. -/
def saveAnalysis (env : Env) (a : AnalysisData) (s : Store) : Store :=
  if env.hasWindow = false then s
  else if env.remoteActive then { s with remote := s.remote ++ [a.toRow] }
  else
    { s with localAnalyses :=
        fun t => if t = a.tenantId then s.localAnalyses a.tenantId ++ [a] else s.localAnalyses t }

/-- Insertion into a timestamp-descending list. -/
def insertTsDesc (r : AnalysisRow) : List AnalysisRow → List AnalysisRow
  | [] => [r]
  | x :: xs => if x.timestamp ≤ r.timestamp then r :: x :: xs else x :: insertTsDesc r xs

/-- The remote `order('timestamp', { ascending: false })`. -/
def sortTsDesc : List AnalysisRow → List AnalysisRow
  | [] => []
  | x :: xs => insertTsDesc x (sortTsDesc xs)

/-- `loadAnalyses` (`src/lib/data.ts` lines 181-227): empty outside a browser;
remote select filtered by `tenant_id`, ordered by `timestamp` descending and
mapped back to camelCase; on failure or unavailability, the tenant-scoped
local list (insertion order). -/
def loadAnalyses (env : Env) (tenantId : String) (s : Store) : List AnalysisData :=
  if env.hasWindow = false then []
  else if env.remoteActive then
    (sortTsDesc (s.remote.filter (fun r => r.tenant_id == tenantId))).map AnalysisRow.toData
  else s.localAnalyses tenantId

/-- `deleteAnalysis` (`src/lib/data.ts` lines 232-261): remote delete filtered
by both `id` and `tenant_id`; on failure or unavailability, filter the id out
of the tenant-scoped local list and rewrite it. -/
def deleteAnalysis (env : Env) (analysisId tenantId : String) (s : Store) : Store :=
  if env.hasWindow = false then s
  else if env.remoteActive then
    { s with remote := s.remote.filter (fun r => !(r.id == analysisId && r.tenant_id == tenantId)) }
  else
    { s with localAnalyses :=
        fun t => if t = tenantId then (s.localAnalyses tenantId).filter (fun a => a.id != analysisId)
                 else s.localAnalyses t }

/-- `syncLocalStorageToSupabase` (`src/lib/data.ts` lines 322-362): no-op with
a warning when Supabase is unavailable; no-op when the tenant's local list is
absent or empty; otherwise one batch upsert of every local record keyed by
`id` (modelled as a left fold of single upserts).  The local copies are never
touched; a failing remote upsert only logs. -/
def syncLocalStorageToSupabase (env : Env) (tenantId : String) (s : Store) : Store :=
  if env.isSupabaseAvailable = false then s
  else if s.localAnalyses tenantId = [] then s
  else if env.remoteOk then
    { s with remote := ((s.localAnalyses tenantId).map AnalysisData.toRow).foldl upsertAnalysisRow s.remote }
  else s

/-- The state-mutating public gateway calls, each with its own per-call
environment (availability is re-probed per call in the source). -/
inductive GatewayOp where
  | saveUserOp (env : Env) (u : User)
  | logoutOp (env : Env)
  | saveAnalysisOp (env : Env) (a : AnalysisData)
  | deleteAnalysisOp (env : Env) (analysisId tenantId : String)
  | syncOp (env : Env) (tenantId : String)

def GatewayOp.exec : GatewayOp → Store → Store
  | GatewayOp.saveUserOp env u => saveUser env u
  | GatewayOp.logoutOp env => logout env
  | GatewayOp.saveAnalysisOp env a => saveAnalysis env a
  | GatewayOp.deleteAnalysisOp env i t => deleteAnalysis env i t
  | GatewayOp.syncOp env t => syncLocalStorageToSupabase env t

def runOps (ops : List GatewayOp) (s : Store) : Store :=
  ops.foldl (fun st op => op.exec st) s

/-- Local-cache partitioning invariant: every record stored under a tenant's
key carries that tenant's id. -/
def TenantInv (s : Store) : Prop :=
  ∀ t a, a ∈ s.localAnalyses t → a.tenantId = t

/-!
## Concrete objects used by witnesses and counterexamples
-/

/-- The spec's worked example input (`generateTestData`). -/
def sampleForm : FormData := ⟨some 100000, some 4000, some 70000, some 5000, [], "2024-01", "demo-tenant"⟩

/-- A form with `vbv = 0` and `rol > rbr`. -/
def d0 : FormData := ⟨some 0, some 0, some 5, some 0, [], "", "t0"⟩

/-- A concrete analysis record for tenant `t0`. -/
def a0 : AnalysisData := ⟨"id0", "u0", "t0", ⟨none, none, none, none, [], "p", "t0"⟩, ⟨0, 0, 0, 0, 0⟩, "ts0"⟩

/-- A concrete user. -/
def u0 : User := ⟨"uid0", "u@e", "U", "t0", "user", "2024-01-01"⟩

/-- Browser, configured, remote calls succeed. -/
def envRemote : Env := ⟨true, true, true⟩

/-- Browser, configured, but the remote call fails (network/query error). -/
def envFallback : Env := ⟨true, true, false⟩

/-- A store whose only content is `a0` cached under tenant `t0`. -/
def s9 : Store := ⟨[], [], none, fun t => if t = "t0" then [a0] else []⟩

/-- One fallback-path `saveAnalysis` call. -/
def ops0 : List GatewayOp := [GatewayOp.saveAnalysisOp envFallback a0]

/-!
## Lemmas about the normalizer
-/

theorem map_commaToDot_eq_self {l : List Char} (h : ',' ∉ l) :
    l.map (fun c => if c = ',' then '.' else c) = l := by
  have h1 : ∀ x ∈ l, (if x = ',' then '.' else x) = id x := by
    intro x hx
    rw [if_neg (by intro he; subst he; exact h hx)]; rfl
  rw [List.map_congr_left h1, List.map_id]

theorem replaceFirstComma_eq_map {l : List Char} (h : l.count ',' ≤ 1) :
    replaceFirstComma l = l.map (fun c => if c = ',' then '.' else c) := by
  induction l with
  | nil => rfl
  | cons c cs ih =>
    by_cases hc : c = ','
    · subst hc
      have h0 : cs.count ',' = 0 := by
        rw [List.count_cons_self] at h; omega
      simp [replaceFirstComma, map_commaToDot_eq_self (List.count_eq_zero.mp h0)]
    · have h' : cs.count ',' ≤ 1 := by
        rwa [List.count_cons_of_ne (fun he => hc he.symm)] at h
      simp [replaceFirstComma, hc, ih h']

theorem ne_empty_of_mem_clean {s : String} {c : Char} (h : c ∈ cleanChars s.data) : ¬ s = "" := by
  intro he; subst he
  rw [show cleanChars "".data = [] from rfl] at h
  exact List.not_mem_nil c h

theorem normalizeNumber_eq_of_ne_empty {s : String} (h : ¬ s = "") :
    normalizeNumber (Sum.inl s) = finiteGuard (parseFloatJS (separatorFix (cleanChars s.data))) := by
  simp only [normalizeNumber, if_neg h]

theorem separatorFix_both {l : List Char} (hc : ',' ∈ l) (hd : '.' ∈ l) :
    separatorFix l = replaceFirstComma (l.filter (fun c => c != '.')) := by
  simp only [separatorFix]
  rw [if_pos (And.intro hc hd)]

theorem separatorFix_commaOnly {l : List Char} (hc : ',' ∈ l) (hd : ¬ '.' ∈ l) :
    separatorFix l = replaceFirstComma l := by
  simp only [separatorFix]
  rw [if_neg (fun hand => hd hand.2), if_pos hc]

theorem separatorFix_multiDot {l : List Char} (hc : ¬ ',' ∈ l) (hd : 1 < l.count '.') :
    separatorFix l = l.filter (fun c => c != '.') := by
  have hdm : '.' ∈ l := List.count_pos_iff.mp (by omega)
  simp only [separatorFix]
  rw [if_neg (fun hand => hc hand.1), if_neg hc, if_pos hdm, if_pos hd]

theorem mem_of_mem_afterFirstDot {l : List Char} {c : Char} (h : c ∈ afterFirstDot l) : c ∈ l :=
  ((List.drop_sublist 1 (l.dropWhile (fun x => x != '.'))).trans
    (List.dropWhile_sublist (fun x => x != '.'))).subset h

theorem separatorFix_singleDot {l : List Char} (hc : ¬ ',' ∈ l) (hd : l.count '.' = 1) :
    separatorFix l = if (afterFirstDot l).length = 3 then removeFirstDot l else l := by
  have hdm : '.' ∈ l := List.count_pos_iff.mp (by omega)
  simp only [separatorFix]
  rw [if_neg (fun hand => hc hand.1), if_neg hc, if_pos hdm,
    if_neg (by omega : ¬ 1 < l.count '.')]
  by_cases h3 : (afterFirstDot l).length = 3
  · rw [if_pos h3]
    rw [if_pos]
    refine ⟨?_, h3, ?_⟩
    · intro he; rw [he] at h3; simp at h3
    · intro hmem; exact hc (mem_of_mem_afterFirstDot hmem)
  · rw [if_neg h3, if_neg (fun hand => h3 hand.2.1)]

/-!
## Claims about the normalizer
-/

/-- C2 (amended): `normalizeNumber` implements the separator policy with the
single-dot clause reading "the part after the dot has exactly 3 characters"
(the source tests `parts[1].length === 3`, so a retained `-` counts), not
"exactly 3 digits" as the claim stated; clauses with "the ','" are stated for
inputs whose cleaned form has exactly one comma (the source's
`replace(",", ".")` replaces only the first comma, which then coincides with
mapping every comma); the six concrete evaluations of the claim all hold. -/
theorem normalizeNumber_separator_policy :
    (∀ s : String, (cleanChars s.data).count ',' = 1 → '.' ∈ cleanChars s.data →
      normalizeNumber (Sum.inl s) =
        finiteGuard (parseFloatJS (((cleanChars s.data).filter (fun c => c != '.')).map
          (fun c => if c = ',' then '.' else c)))) ∧
    (∀ s : String, (cleanChars s.data).count ',' = 1 → ¬ '.' ∈ cleanChars s.data →
      normalizeNumber (Sum.inl s) =
        finiteGuard (parseFloatJS ((cleanChars s.data).map (fun c => if c = ',' then '.' else c)))) ∧
    (∀ s : String, ¬ ',' ∈ cleanChars s.data → 1 < (cleanChars s.data).count '.' →
      normalizeNumber (Sum.inl s) =
        finiteGuard (parseFloatJS ((cleanChars s.data).filter (fun c => c != '.')))) ∧
    (∀ s : String, ¬ ',' ∈ cleanChars s.data → (cleanChars s.data).count '.' = 1 →
      normalizeNumber (Sum.inl s) =
        (if (afterFirstDot (cleanChars s.data)).length = 3
         then finiteGuard (parseFloatJS (removeFirstDot (cleanChars s.data)))
         else finiteGuard (parseFloatJS (cleanChars s.data)))) ∧
    normalizeNumber (Sum.inl "50.889,20") = JSNum.fin (50889.2 : ℚ) ∧
    normalizeNumber (Sum.inl "1.234.567,89") = JSNum.fin (1234567.89 : ℚ) ∧
    normalizeNumber (Sum.inl "123,45") = JSNum.fin (123.45 : ℚ) ∧
    normalizeNumber (Sum.inl "1234") = JSNum.fin 1234 ∧
    normalizeNumber (Sum.inl "1.000") = JSNum.fin 1000 ∧
    normalizeNumber (Sum.inl "123.45") = JSNum.fin (123.45 : ℚ) := by
  refine ⟨?_, ?_, ?_, ?_, ?_, ?_, ?_, ?_, ?_, ?_⟩
  · intro s h1 h2
    have hmem : ',' ∈ cleanChars s.data := List.count_pos_iff.mp (by omega)
    rw [normalizeNumber_eq_of_ne_empty (ne_empty_of_mem_clean hmem),
      separatorFix_both hmem h2,
      replaceFirstComma_eq_map (by rw [List.count_filter (by decide)]; omega)]
  · intro s h1 h2
    have hmem : ',' ∈ cleanChars s.data := List.count_pos_iff.mp (by omega)
    rw [normalizeNumber_eq_of_ne_empty (ne_empty_of_mem_clean hmem),
      separatorFix_commaOnly hmem h2, replaceFirstComma_eq_map (le_of_eq h1)]
  · intro s h1 h2
    have hmem : '.' ∈ cleanChars s.data := List.count_pos_iff.mp (by omega)
    rw [normalizeNumber_eq_of_ne_empty (ne_empty_of_mem_clean hmem),
      separatorFix_multiDot h1 h2]
  · intro s h1 h2
    have hmem : '.' ∈ cleanChars s.data := List.count_pos_iff.mp (by omega)
    rw [normalizeNumber_eq_of_ne_empty (ne_empty_of_mem_clean hmem),
      separatorFix_singleDot h1 h2,
      apply_ite (fun x => finiteGuard (parseFloatJS x))]
  · rw [show (50889.2 : ℚ) = Rat.divInt 508892 10 by norm_num [Rat.divInt_eq_div]]; rfl
  · rw [show (1234567.89 : ℚ) = Rat.divInt 123456789 100 by norm_num [Rat.divInt_eq_div]]; rfl
  · rw [show (123.45 : ℚ) = Rat.divInt 12345 100 by norm_num [Rat.divInt_eq_div]]; rfl
  · rw [show (1234 : ℚ) = Rat.divInt 1234 1 by norm_num [Rat.divInt_eq_div]]; rfl
  · rw [show (1000 : ℚ) = Rat.divInt 1000 1 by norm_num [Rat.divInt_eq_div]]; rfl
  · rw [show (123.45 : ℚ) = Rat.divInt 12345 100 by norm_num [Rat.divInt_eq_div]]; rfl

/-- Witness for the policy clauses of `normalizeNumber_separator_policy`,
applying the only-comma clause at `"7,5"`. -/
theorem normalizeNumber_separator_policy_witness :
    normalizeNumber (Sum.inl "7,5") =
      finiteGuard (parseFloatJS ((cleanChars "7,5".data).map (fun c => if c = ',' then '.' else c))) :=
  normalizeNumber_separator_policy.2.1 "7,5" (by decide) (by decide)

/-- C2 counterexample: on `"1.23-"` the part after the single dot is `"23-"` —
length 3 but only 2 digits.  The source strips the dot (result `123`), while
the claimed "exactly 3 digits" policy keeps it as a decimal point
(result `1.23`), so the claim as stated is false. -/
theorem normalizeNumber_claimedPolicy_counterexample :
    normalizeNumber (Sum.inl "1.23-") = JSNum.fin 123 ∧
    claimedPolicy "1.23-" = JSNum.fin (1.23 : ℚ) ∧
    JSNum.fin (123 : ℚ) ≠ JSNum.fin (1.23 : ℚ) := by
  refine ⟨?_, ?_, ?_⟩
  · rw [show (123 : ℚ) = Rat.divInt 123 1 by norm_num [Rat.divInt_eq_div]]; rfl
  · rw [show (1.23 : ℚ) = Rat.divInt 123 100 by norm_num [Rat.divInt_eq_div]]; rfl
  · intro h
    rw [JSNum.fin.injEq] at h
    norm_num at h

/-- C7: for every string input `normalizeNumber` returns a finite number, and
a failed parse (`NaN`) is replaced by `0`.  (In this model the only
non-finite value the restricted `parseFloat` can produce is `NaN`; an
overflow to `Infinity` is likewise caught by the same `Number.isFinite`
guard.) -/
theorem normalizeNumber_total_finite :
    ∀ s : String, ∃ q : ℚ, normalizeNumber (Sum.inl s) = JSNum.fin q ∧
      (parseFloatJS (separatorFix (cleanChars s.data)) = JSNum.nan → q = 0) := by
  intro s
  by_cases hs : s = ""
  · subst hs; exact ⟨0, rfl, fun _ => rfl⟩
  · rcases hp : parseFloatJS (separatorFix (cleanChars s.data)) with _ | _ | _ | q
    · exact ⟨0, by rw [normalizeNumber_eq_of_ne_empty hs, hp]; rfl, fun _ => rfl⟩
    · exact ⟨0, by rw [normalizeNumber_eq_of_ne_empty hs, hp]; rfl, fun _ => rfl⟩
    · exact ⟨0, by rw [normalizeNumber_eq_of_ne_empty hs, hp]; rfl, fun _ => rfl⟩
    · exact ⟨q, by rw [normalizeNumber_eq_of_ne_empty hs, hp]; rfl,
        fun hnan => absurd hnan (by simp)⟩

/-- Witness for `normalizeNumber_total_finite` at `"abc"`: every character is
cleaned away, the parse is `NaN`, and the result is `0`. -/
theorem normalizeNumber_total_finite_witness :
    normalizeNumber (Sum.inl "abc") = JSNum.fin 0 := by
  obtain ⟨q, hq, hz⟩ := normalizeNumber_total_finite "abc"
  rw [hq, hz rfl]

/-- C10: an input that is already numeric is returned as-is by the
`typeof value === "number"` early return, before the finiteness guard; in
particular `NaN` and `Infinity` arguments pass through unchanged, so the
finite-result guarantee holds only for string arguments. -/
theorem normalizeNumber_numeric_passthrough :
    (∀ x : JSNum, normalizeNumber (Sum.inr x) = x) ∧
    normalizeNumber (Sum.inr JSNum.nan) = JSNum.nan ∧
    normalizeNumber (Sum.inr JSNum.inf) = JSNum.inf :=
  ⟨fun _ => rfl, rfl, rfl⟩

/-!
## Claims about the metrics engine
-/

/-- C3: `calculateMetrics` is pure and total (a Lean function), computes
`rbr`, `rol`, the guarded `rentabilidadeLiquida`, `retencaoIfoodPercentual`
and `valorRetidoIfood` from the coerced fields, and yields the spec's worked
example values on `{vbv:100000, valoresPagosCliente:4000, vrl:70000,
vrlj:5000}`. -/
theorem calculateMetrics_spec :
    (∀ d : FormData,
      (calculateMetrics d).rbr = coerce d.vbv - coerce d.valoresPagosCliente ∧
      (calculateMetrics d).rol = coerce d.vrl + coerce d.vrlj ∧
      (calculateMetrics d).rentabilidadeLiquida =
        (if (calculateMetrics d).rbr > 0
         then (calculateMetrics d).rol / (calculateMetrics d).rbr * 100 else 0) ∧
      (calculateMetrics d).retencaoIfoodPercentual = 100 - (calculateMetrics d).rentabilidadeLiquida ∧
      (calculateMetrics d).valorRetidoIfood = (calculateMetrics d).rbr - (calculateMetrics d).rol) ∧
    calculateMetrics sampleForm = ⟨96000, 75000, 78.125, 21.875, 21000⟩ := by
  constructor
  · exact fun d => ⟨rfl, rfl, rfl, rfl, rfl⟩
  · simp only [calculateMetrics, sampleForm, coerce, Option.getD, CalculatedData.mk.injEq]
    norm_num

/-!
## Claims about the validator
-/

/-- C4: `isValid` holds iff the error list is empty (so warnings never affect
validity); the error list is a function of the coerced `vbv` and
`valoresPagosCliente` alone (so the `rol > rbr` condition never contributes
an error); `vbv = 0` always yields an error on field `vbv`; and `rol > rbr`
always yields exactly one warning. -/
theorem validateFormData_spec :
    (∀ d : FormData, ((validateFormData d).isValid = true ↔ (validateFormData d).errors = [])) ∧
    (∀ d d' : FormData, coerce d.vbv = coerce d'.vbv →
      coerce d.valoresPagosCliente = coerce d'.valoresPagosCliente →
      (validateFormData d).errors = (validateFormData d').errors) ∧
    (∀ d : FormData, coerce d.vbv = 0 →
      ∃ e ∈ (validateFormData d).errors, e.field = "vbv") ∧
    (∀ d : FormData,
      coerce d.vrl + coerce d.vrlj > coerce d.vbv - coerce d.valoresPagosCliente →
      (validateFormData d).warnings.length = 1) := by
  refine ⟨?_, ?_, ?_, ?_⟩
  · intro d
    show ((validateFormData d).errors.length == 0) = true ↔ (validateFormData d).errors = []
    rw [beq_iff_eq, List.length_eq_zero]
  · intro d d' h1 h2
    rw [show (validateFormData d).errors =
          valErrors (coerce d.vbv) (coerce d.valoresPagosCliente) from rfl,
        show (validateFormData d').errors =
          valErrors (coerce d'.vbv) (coerce d'.valoresPagosCliente) from rfl,
        h1, h2]
  · intro d h0
    refine ⟨VError.mk "vbv" "VBV deve ser maior que zero.", ?_, rfl⟩
    rw [show (validateFormData d).errors =
          valErrors (coerce d.vbv) (coerce d.valoresPagosCliente) from rfl, h0]
    simp [valErrors]
  · intro d hw
    rw [show (validateFormData d).warnings =
          (if coerce d.vrl + coerce d.vrlj > coerce d.vbv - coerce d.valoresPagosCliente
           then ["ROL maior do que a Receita Bruta Real. Revise os números."] else []) from rfl,
        if_pos hw]
    rfl

/-- Witness for `validateFormData_spec` at `d0` (`vbv = 0`, `rol = 5 > 0 = rbr`). -/
theorem validateFormData_spec_witness :
    (∃ e ∈ (validateFormData d0).errors, e.field = "vbv") ∧
    (validateFormData d0).warnings.length = 1 :=
  ⟨validateFormData_spec.2.2.1 d0 rfl,
   validateFormData_spec.2.2.2 d0 (by norm_num [d0, coerce, Option.getD])⟩

/-!
## Lemmas about the gateway
-/

theorem hasWindow_of_remoteActive {env : Env} (h : env.remoteActive = true) :
    env.hasWindow = true := by
  simp only [Env.remoteActive, Env.isSupabaseAvailable, Bool.and_eq_true] at h
  exact h.1.1

theorem mem_insertTsDesc {r x : AnalysisRow} {l : List AnalysisRow} :
    x ∈ insertTsDesc r l ↔ x = r ∨ x ∈ l := by
  induction l with
  | nil => simp [insertTsDesc]
  | cons y ys ih =>
    simp only [insertTsDesc]
    by_cases h : y.timestamp ≤ r.timestamp
    · rw [if_pos h]; simp [List.mem_cons]
    · rw [if_neg h]; simp only [List.mem_cons, ih]; tauto

theorem mem_sortTsDesc {x : AnalysisRow} {l : List AnalysisRow} :
    x ∈ sortTsDesc l ↔ x ∈ l := by
  induction l with
  | nil => simp [sortTsDesc]
  | cons y ys ih => simp [sortTsDesc, mem_insertTsDesc, ih]

theorem toData_toRow (a : AnalysisData) : a.toRow.toData = a := rfl

/-!
## Claims C1 and C5: round trip and write-through
-/

/-- C1 (amended): `saveAnalysis(a)` followed by `loadAnalyses(a.tenantId)`
yields a list containing `a` whenever the two calls take the same path —
both remote (available and succeeding) or both the local fallback.  It does
NOT hold when the paths differ (see the counterexample), because a
successful remote `saveAnalysis` is not mirrored locally and a local
fallback write is not visible remotely. -/
theorem saveAnalysis_loadAnalyses_roundtrip_samePath :
    ∀ (env1 env2 : Env) (a : AnalysisData) (s : Store),
      env1.hasWindow = true → env2.hasWindow = true →
      env1.remoteActive = env2.remoteActive →
      a ∈ loadAnalyses env2 a.tenantId (saveAnalysis env1 a s) := by
  intro env1 env2 a s h1 h2 h12
  by_cases hr : env2.remoteActive = true
  · have hr1 : env1.remoteActive = true := by rw [h12]; exact hr
    have hsave : saveAnalysis env1 a s = { s with remote := s.remote ++ [a.toRow] } := by
      simp only [saveAnalysis]; rw [if_neg (by simp [h1]), if_pos hr1]
    have hload : loadAnalyses env2 a.tenantId (saveAnalysis env1 a s) =
        (sortTsDesc (((saveAnalysis env1 a s).remote).filter
          (fun r => r.tenant_id == a.tenantId))).map AnalysisRow.toData := by
      simp only [loadAnalyses]; rw [if_neg (by simp [h2]), if_pos hr]
    rw [hload, hsave]
    refine List.mem_map.mpr ⟨a.toRow, ?_, toData_toRow a⟩
    rw [mem_sortTsDesc, List.mem_filter]
    exact ⟨List.mem_append.mpr (Or.inr (List.mem_singleton.mpr rfl)),
      by simp [AnalysisData.toRow]⟩
  · have hr1 : ¬ env1.remoteActive = true := by rw [h12]; exact hr
    have hsave : saveAnalysis env1 a s = { s with localAnalyses :=
        (fun t => if t = a.tenantId then s.localAnalyses a.tenantId ++ [a]
                  else s.localAnalyses t) } := by
      simp only [saveAnalysis]; rw [if_neg (by simp [h1]), if_neg hr1]
    have hload : loadAnalyses env2 a.tenantId (saveAnalysis env1 a s) =
        (saveAnalysis env1 a s).localAnalyses a.tenantId := by
      simp only [loadAnalyses]; rw [if_neg (by simp [h2]), if_neg hr]
    rw [hload, hsave]
    simp

/-- Witness for `saveAnalysis_loadAnalyses_roundtrip_samePath`: both calls on
the successful remote path. -/
theorem saveAnalysis_loadAnalyses_roundtrip_samePath_witness :
    a0 ∈ loadAnalyses envRemote a0.tenantId (saveAnalysis envRemote a0 initStore) :=
  saveAnalysis_loadAnalyses_roundtrip_samePath envRemote envRemote a0 initStore rfl rfl rfl

/-- C1 counterexample: the remote save succeeds, then the load falls back to
localStorage (remote call fails) — the record is not found, because a
successful remote `saveAnalysis` writes nothing locally.  So the round trip
does not hold "regardless of whether the remote path or the local fallback
path is taken by each of the two calls". -/
theorem saveAnalysis_loadAnalyses_roundtrip_counterexample :
    a0.tenantId = "t0" ∧
    a0 ∉ loadAnalyses envFallback "t0" (saveAnalysis envRemote a0 initStore) := by
  refine ⟨rfl, ?_⟩
  rw [show loadAnalyses envFallback "t0" (saveAnalysis envRemote a0 initStore) = [] from rfl]
  exact List.not_mem_nil a0

/-- C5 counterexample: a successful remote `saveAnalysis` (the row is in the
remote table) leaves the local cache untouched — `saveAnalysis` has no
write-through on success, refuting the claim for "every Gateway write
operation". -/
theorem saveAnalysis_writeThrough_counterexample :
    (saveAnalysis envRemote a0 initStore).remote = [a0.toRow] ∧
    (saveAnalysis envRemote a0 initStore).localAnalyses a0.tenantId = [] :=
  ⟨rfl, rfl⟩

/-- C5 (amended): `saveUser` mirrors a successful remote write into the local
cache; `saveAnalysis` does NOT — on remote success it leaves the whole local
store untouched; on the fallback path neither operation touches the remote
store, and nothing is written locally beyond the fallback write itself. -/
theorem save_writeThrough_spec :
    (∀ (env : Env) (u : User) (s : Store), env.remoteActive = true →
      (saveUser env u s).localUser = some u ∧
      (saveUser env u s).remoteUsers = upsertUserRow s.remoteUsers u.toRow ∧
      (saveUser env u s).remote = s.remote ∧
      (saveUser env u s).localAnalyses = s.localAnalyses) ∧
    (∀ (env : Env) (a : AnalysisData) (s : Store), env.remoteActive = true →
      (saveAnalysis env a s).remote = s.remote ++ [a.toRow] ∧
      (saveAnalysis env a s).localAnalyses = s.localAnalyses ∧
      (saveAnalysis env a s).localUser = s.localUser) ∧
    (∀ (env : Env) (u : User) (s : Store), env.hasWindow = true → env.remoteActive = false →
      (saveUser env u s).localUser = some u ∧
      (saveUser env u s).remoteUsers = s.remoteUsers ∧
      (saveUser env u s).remote = s.remote ∧
      (saveUser env u s).localAnalyses = s.localAnalyses) ∧
    (∀ (env : Env) (a : AnalysisData) (s : Store), env.hasWindow = true → env.remoteActive = false →
      (saveAnalysis env a s).remote = s.remote ∧
      (saveAnalysis env a s).remoteUsers = s.remoteUsers ∧
      (saveAnalysis env a s).localUser = s.localUser ∧
      (saveAnalysis env a s).localAnalyses a.tenantId = s.localAnalyses a.tenantId ++ [a] ∧
      (∀ t, ¬ t = a.tenantId → (saveAnalysis env a s).localAnalyses t = s.localAnalyses t)) := by
  refine ⟨?_, ?_, ?_, ?_⟩
  · intro env u s hact
    have h : saveUser env u s =
        { s with remoteUsers := upsertUserRow s.remoteUsers u.toRow, localUser := some u } := by
      simp only [saveUser]; rw [if_neg (by simp [hasWindow_of_remoteActive hact]), if_pos hact]
    rw [h]; exact ⟨rfl, rfl, rfl, rfl⟩
  · intro env a s hact
    have h : saveAnalysis env a s = { s with remote := s.remote ++ [a.toRow] } := by
      simp only [saveAnalysis]; rw [if_neg (by simp [hasWindow_of_remoteActive hact]), if_pos hact]
    rw [h]; exact ⟨rfl, rfl, rfl⟩
  · intro env u s hw hact
    have h : saveUser env u s = { s with localUser := some u } := by
      simp only [saveUser]; rw [if_neg (by simp [hw]), if_neg (by simp [hact])]
    rw [h]; exact ⟨rfl, rfl, rfl, rfl⟩
  · intro env a s hw hact
    have h : saveAnalysis env a s = { s with localAnalyses :=
        (fun t => if t = a.tenantId then s.localAnalyses a.tenantId ++ [a]
                  else s.localAnalyses t) } := by
      simp only [saveAnalysis]; rw [if_neg (by simp [hw]), if_neg (by simp [hact])]
    rw [h]
    refine ⟨rfl, rfl, rfl, by simp, ?_⟩
    intro t ht
    simp [ht]

/-- Witness for `save_writeThrough_spec`: a successful remote `saveUser`
mirrors locally, a successful remote `saveAnalysis` leaves local storage
unchanged. -/
theorem save_writeThrough_spec_witness :
    (saveUser envRemote u0 initStore).localUser = some u0 ∧
    (saveAnalysis envRemote a0 initStore).localAnalyses = initStore.localAnalyses :=
  ⟨(save_writeThrough_spec.1 envRemote u0 initStore rfl).1,
   (save_writeThrough_spec.2.1 envRemote a0 initStore rfl).2.1⟩

/-!
## Claim C6: tenant isolation
-/

theorem loadAnalyses_tenantId {env : Env} {t : String} {s : Store} (hInv : TenantInv s) :
    ∀ a ∈ loadAnalyses env t s, a.tenantId = t := by
  intro a ha
  by_cases hw : env.hasWindow = false
  · simp [loadAnalyses, hw] at ha
  · by_cases hr : env.remoteActive = true
    · simp only [loadAnalyses] at ha
      rw [if_neg hw, if_pos hr] at ha
      obtain ⟨r, hrmem, hrd⟩ := List.mem_map.mp ha
      rw [mem_sortTsDesc, List.mem_filter] at hrmem
      rw [← hrd]
      exact eq_of_beq hrmem.2
    · simp only [loadAnalyses] at ha
      rw [if_neg hw, if_neg hr] at ha
      exact hInv t a ha

theorem saveUser_localAnalyses (env : Env) (u : User) (s : Store) :
    (saveUser env u s).localAnalyses = s.localAnalyses := by
  simp only [saveUser]
  by_cases hw : env.hasWindow = false
  · rw [if_pos hw]
  · rw [if_neg hw]
    by_cases ha : env.remoteActive = true
    · rw [if_pos ha]
    · rw [if_neg ha]

theorem logout_localAnalyses (env : Env) (s : Store) :
    (logout env s).localAnalyses = s.localAnalyses := by
  simp only [logout]
  by_cases hw : env.hasWindow = false
  · rw [if_pos hw]
  · rw [if_neg hw]

theorem sync_localAnalyses (env : Env) (t : String) (s : Store) :
    (syncLocalStorageToSupabase env t s).localAnalyses = s.localAnalyses := by
  simp only [syncLocalStorageToSupabase]
  by_cases h1 : env.isSupabaseAvailable = false
  · rw [if_pos h1]
  · rw [if_neg h1]
    by_cases h2 : s.localAnalyses t = []
    · rw [if_pos h2]
    · rw [if_neg h2]
      by_cases h3 : env.remoteOk = true
      · rw [if_pos h3]
      · rw [if_neg h3]

theorem saveAnalysis_preserves_TenantInv (env : Env) (a : AnalysisData) (s : Store)
    (h : TenantInv s) : TenantInv (saveAnalysis env a s) := by
  simp only [saveAnalysis]
  by_cases hw : env.hasWindow = false
  · rw [if_pos hw]; exact h
  · rw [if_neg hw]
    by_cases ha : env.remoteActive = true
    · rw [if_pos ha]; exact h
    · rw [if_neg ha]
      intro t x hx
      have hx2 : x ∈ (if t = a.tenantId then s.localAnalyses a.tenantId ++ [a]
          else s.localAnalyses t) := hx
      by_cases ht : t = a.tenantId
      · rw [if_pos ht] at hx2
        rcases List.mem_append.mp hx2 with h1 | h2
        · rw [ht]; exact h _ x h1
        · rw [List.mem_singleton] at h2; subst h2; rw [ht]
      · rw [if_neg ht] at hx2
        exact h t x hx2

theorem deleteAnalysis_preserves_TenantInv (env : Env) (i tId : String) (s : Store)
    (h : TenantInv s) : TenantInv (deleteAnalysis env i tId s) := by
  simp only [deleteAnalysis]
  by_cases hw : env.hasWindow = false
  · rw [if_pos hw]; exact h
  · rw [if_neg hw]
    by_cases ha : env.remoteActive = true
    · rw [if_pos ha]; exact h
    · rw [if_neg ha]
      intro t x hx
      have hx2 : x ∈ (if t = tId then (s.localAnalyses tId).filter (fun a => a.id != i)
          else s.localAnalyses t) := hx
      by_cases ht : t = tId
      · rw [if_pos ht] at hx2
        rw [ht]; exact h _ x (List.mem_filter.mp hx2).1
      · rw [if_neg ht] at hx2
        exact h t x hx2

theorem exec_preserves_TenantInv (op : GatewayOp) (s : Store) (h : TenantInv s) :
    TenantInv (op.exec s) := by
  cases op with
  | saveUserOp env u =>
    intro t a ha
    rw [show (GatewayOp.saveUserOp env u).exec s = saveUser env u s from rfl,
      saveUser_localAnalyses] at ha
    exact h t a ha
  | logoutOp env =>
    intro t a ha
    rw [show (GatewayOp.logoutOp env).exec s = logout env s from rfl,
      logout_localAnalyses] at ha
    exact h t a ha
  | saveAnalysisOp env a => exact saveAnalysis_preserves_TenantInv env a s h
  | deleteAnalysisOp env i tId => exact deleteAnalysis_preserves_TenantInv env i tId s h
  | syncOp env tId =>
    intro t a ha
    rw [show (GatewayOp.syncOp env tId).exec s = syncLocalStorageToSupabase env tId s from rfl,
      sync_localAnalyses] at ha
    exact h t a ha

theorem runOps_preserves_TenantInv (ops : List GatewayOp) :
    ∀ s : Store, TenantInv s → TenantInv (runOps ops s) := by
  induction ops with
  | nil => exact fun s h => h
  | cons op ops ih =>
    intro s h
    exact ih (op.exec s) (exec_preserves_TenantInv op s h)

theorem initStore_TenantInv : TenantInv initStore := by
  intro t a ha
  exact absurd ha (List.not_mem_nil a)

/-- C6: starting from the empty store, no sequence of public (mutating)
gateway calls can make `loadAnalyses(t)` — on either path — return a record
whose `tenantId` differs from `t`; and the local key pattern
`ifood-analyses-{tenantId}` is injective in the tenant id, so tenants'
local lists can never collide. -/
theorem loadAnalyses_tenant_isolation :
    (∀ (ops : List GatewayOp) (env : Env) (t : String) (a : AnalysisData),
      a ∈ loadAnalyses env t (runOps ops initStore) → a.tenantId = t) ∧
    (∀ t1 t2 : String, analysesKey t1 = analysesKey t2 → t1 = t2) := by
  constructor
  · intro ops env t a ha
    exact loadAnalyses_tenantId (runOps_preserves_TenantInv ops initStore initStore_TenantInv) a ha
  · intro t1 t2 h
    simp only [analysesKey] at h
    have hd := congrArg String.data h
    rw [String.data_append, String.data_append] at hd
    exact String.ext (List.append_cancel_left hd)

/-- Witness for `loadAnalyses_tenant_isolation`: after one fallback-path
save, the record read back for tenant `t0` carries tenant id `t0`. -/
theorem loadAnalyses_tenant_isolation_witness : a0.tenantId = "t0" :=
  loadAnalyses_tenant_isolation.1 ops0 envFallback "t0" a0
    (by rw [show loadAnalyses envFallback "t0" (runOps ops0 initStore) = [a0] from rfl]
        exact List.mem_singleton.mpr rfl)

/-!
## Claim C8: delete idempotence
-/

/-- C8: under an unchanged per-call environment, running
`deleteAnalysis(id, tenantId)` twice from any starting store leaves exactly
the state of running it once — on the remote path the second delete matches
nothing, on the local path filtering is idempotent. -/
theorem deleteAnalysis_idempotent :
    ∀ (env : Env) (analysisId tenantId : String) (s : Store),
      deleteAnalysis env analysisId tenantId (deleteAnalysis env analysisId tenantId s) =
        deleteAnalysis env analysisId tenantId s := by
  intro env i tId s
  by_cases hw : env.hasWindow = false
  · simp only [deleteAnalysis]
    rw [if_pos hw, if_pos hw]
  · by_cases ha : env.remoteActive = true
    · have h1 : deleteAnalysis env i tId s =
          { s with remote := s.remote.filter (fun r => !(r.id == i && r.tenant_id == tId)) } := by
        simp only [deleteAnalysis]; rw [if_neg hw, if_pos ha]
      rw [h1]
      simp only [deleteAnalysis]
      rw [if_neg hw, if_pos ha]
      simp [List.filter_filter]
    · have h1 : deleteAnalysis env i tId s = { s with localAnalyses :=
          (fun t => if t = tId then (s.localAnalyses tId).filter (fun a => a.id != i)
                    else s.localAnalyses t) } := by
        simp only [deleteAnalysis]; rw [if_neg hw, if_neg ha]
      rw [h1]
      simp only [deleteAnalysis]
      rw [if_neg hw, if_neg ha]
      congr 1
      funext t
      by_cases ht : t = tId
      · simp [ht, List.filter_filter]
      · simp [ht]

/-!
## Claim C9: sync idempotence
-/

theorem upsert_mem_id {R : List AnalysisRow} {r x : AnalysisRow}
    (hx : x ∈ upsertAnalysisRow R r) (hid : x.id = r.id) : x = r := by
  simp only [upsertAnalysisRow] at hx
  by_cases h : R.any (fun y => y.id == r.id) = true
  · rw [if_pos h] at hx
    obtain ⟨y, hy, hxy⟩ := List.mem_map.mp hx
    by_cases hyr : y.id = r.id
    · rw [if_pos hyr] at hxy; exact hxy.symm
    · rw [if_neg hyr] at hxy; subst hxy; exact absurd hid hyr
  · rw [if_neg h] at hx
    rcases List.mem_append.mp hx with h1 | h2
    · exact absurd (List.any_eq_true.mpr ⟨x, h1, by rw [hid]; exact beq_self_eq_true r.id⟩) h
    · exact List.mem_singleton.mp h2

theorem upsert_id_mem {R : List AnalysisRow} (r : AnalysisRow) :
    r.id ∈ (upsertAnalysisRow R r).map (fun x => x.id) := by
  simp only [upsertAnalysisRow]
  by_cases h : R.any (fun y => y.id == r.id) = true
  · rw [if_pos h]
    obtain ⟨y, hy, hyid⟩ := List.any_eq_true.mp h
    exact List.mem_map.mpr ⟨r, List.mem_map.mpr ⟨y, hy, by rw [if_pos (eq_of_beq hyid)]⟩, rfl⟩
  · rw [if_neg h, List.map_append]
    exact List.mem_append.mpr (Or.inr (by simp))

theorem upsert_mem_id_mono {R : List AnalysisRow} {i : String} (r : AnalysisRow)
    (h : i ∈ R.map (fun x => x.id)) : i ∈ (upsertAnalysisRow R r).map (fun x => x.id) := by
  simp only [upsertAnalysisRow]
  by_cases hany : R.any (fun y => y.id == r.id) = true
  · rw [if_pos hany]
    obtain ⟨y, hy, hyi⟩ := List.mem_map.mp h
    refine List.mem_map.mpr ?_
    by_cases hyr : y.id = r.id
    · exact ⟨r, List.mem_map.mpr ⟨y, hy, by rw [if_pos hyr]⟩, by rw [← hyi, hyr]⟩
    · exact ⟨y, List.mem_map.mpr ⟨y, hy, by rw [if_neg hyr]⟩, hyi⟩
  · rw [if_neg hany, List.map_append]
    exact List.mem_append.mpr (Or.inl h)

theorem upsert_pres_pred {R : List AnalysisRow} {i : String} {p r : AnalysisRow}
    (hP : ∀ x ∈ R, x.id = i → x = p) (hne : ¬ r.id = i) :
    ∀ x ∈ upsertAnalysisRow R r, x.id = i → x = p := by
  intro x hx hxi
  simp only [upsertAnalysisRow] at hx
  by_cases hany : R.any (fun y => y.id == r.id) = true
  · rw [if_pos hany] at hx
    obtain ⟨y, hy, hxy⟩ := List.mem_map.mp hx
    by_cases hyr : y.id = r.id
    · rw [if_pos hyr] at hxy; subst hxy; exact absurd hxi hne
    · rw [if_neg hyr] at hxy; subst hxy; exact hP y hy hxi
  · rw [if_neg hany] at hx
    rcases List.mem_append.mp hx with h1 | h2
    · exact hP x h1 hxi
    · rw [List.mem_singleton] at h2; subst h2; exact absurd hxi hne

theorem upsert_absorb {R : List AnalysisRow} {r : AnalysisRow}
    (hmem : r.id ∈ R.map (fun x => x.id)) (hP : ∀ x ∈ R, x.id = r.id → x = r) :
    upsertAnalysisRow R r = R := by
  simp only [upsertAnalysisRow]
  obtain ⟨y, hy, hyi⟩ := List.mem_map.mp hmem
  have hany : R.any (fun z => z.id == r.id) = true :=
    List.any_eq_true.mpr ⟨y, hy, by rw [hyi]; exact beq_self_eq_true r.id⟩
  rw [if_pos hany]
  have h1 : ∀ x ∈ R, (if x.id = r.id then r else x) = id x := by
    intro x hx
    by_cases hxr : x.id = r.id
    · rw [if_pos hxr]; exact (hP x hx hxr).symm
    · rw [if_neg hxr]; rfl
  rw [List.map_congr_left h1, List.map_id]

theorem foldl_upsert_pres {i : String} {p : AnalysisRow} :
    ∀ (L : List AnalysisRow) (R : List AnalysisRow),
    (∀ x ∈ R, x.id = i → x = p) → i ∈ R.map (fun x => x.id) →
    (∀ r ∈ L, ¬ r.id = i) →
    (∀ x ∈ L.foldl upsertAnalysisRow R, x.id = i → x = p) ∧
      i ∈ (L.foldl upsertAnalysisRow R).map (fun x => x.id) := by
  intro L
  induction L with
  | nil => exact fun R h1 h2 _ => ⟨h1, h2⟩
  | cons r L ih =>
    intro R h1 h2 h3
    rw [List.foldl_cons]
    exact ih (upsertAnalysisRow R r)
      (upsert_pres_pred h1 (h3 r (List.mem_cons_self r L)))
      (upsert_mem_id_mono r h2)
      (fun r' hr' => h3 r' (List.mem_cons_of_mem r hr'))

theorem foldl_upsert_replay :
    ∀ (L : List AnalysisRow) (R : List AnalysisRow), (L.map (fun x => x.id)).Nodup →
    L.foldl upsertAnalysisRow (L.foldl upsertAnalysisRow R) = L.foldl upsertAnalysisRow R := by
  intro L
  induction L with
  | nil => exact fun R _ => rfl
  | cons r L ih =>
    intro R hnd
    rw [List.map_cons, List.nodup_cons] at hnd
    obtain ⟨hrn, hnd2⟩ := hnd
    rw [List.foldl_cons, List.foldl_cons]
    have hLne : ∀ r' ∈ L, ¬ r'.id = r.id := by
      intro r' hr' he
      exact hrn (List.mem_map.mpr ⟨r', hr', he⟩)
    obtain ⟨hp, hm⟩ := foldl_upsert_pres L (upsertAnalysisRow R r)
      (fun x hx hxi => upsert_mem_id hx hxi) (upsert_id_mem r) hLne
    rw [upsert_absorb hm hp]
    exact ih (upsertAnalysisRow R r) hnd2

theorem upsert_nodup {R : List AnalysisRow} {r : AnalysisRow}
    (h : (R.map (fun x => x.id)).Nodup) :
    ((upsertAnalysisRow R r).map (fun x => x.id)).Nodup := by
  simp only [upsertAnalysisRow]
  by_cases hany : R.any (fun y => y.id == r.id) = true
  · rw [if_pos hany]
    have hids : ((R.map (fun x => if x.id = r.id then r else x)).map (fun x => x.id)) =
        R.map (fun x => x.id) := by
      rw [List.map_map]
      apply List.map_congr_left
      intro x hx
      by_cases hxr : x.id = r.id
      · simp only [Function.comp, if_pos hxr]
        exact hxr.symm
      · simp only [Function.comp, if_neg hxr]
    rw [hids]; exact h
  · rw [if_neg hany, List.map_append]
    have hni : r.id ∉ R.map (fun x => x.id) := by
      intro hmem
      obtain ⟨y, hy, hyi⟩ := List.mem_map.mp hmem
      exact absurd (List.any_eq_true.mpr ⟨y, hy, by rw [hyi]; exact beq_self_eq_true r.id⟩) hany
    simp [List.nodup_append, h, hni]

theorem foldl_upsert_nodup :
    ∀ (L : List AnalysisRow) (R : List AnalysisRow), (R.map (fun x => x.id)).Nodup →
    ((L.foldl upsertAnalysisRow R).map (fun x => x.id)).Nodup := by
  intro L
  induction L with
  | nil => exact fun R h => h
  | cons r L ih =>
    intro R h
    rw [List.foldl_cons]
    exact ih (upsertAnalysisRow R r) (upsert_nodup h)

/-- C9: `syncLocalStorageToSupabase` is idempotent and non-destructive when
the tenant's local records have pairwise-distinct ids: running it twice with
unchanged local data yields exactly the state of running it once; it never
touches the local store; and it cannot introduce duplicate remote ids (the
upsert conflict key is `id`). -/
theorem syncLocalStorageToSupabase_idempotent :
    ∀ (env : Env) (t : String) (s : Store),
      ((s.localAnalyses t).map (fun a => a.id)).Nodup →
      (syncLocalStorageToSupabase env t (syncLocalStorageToSupabase env t s) =
        syncLocalStorageToSupabase env t s ∧
      (syncLocalStorageToSupabase env t s).localAnalyses = s.localAnalyses ∧
      ((s.remote.map (fun r => r.id)).Nodup →
        (((syncLocalStorageToSupabase env t s).remote).map (fun r => r.id)).Nodup)) := by
  intro env t s hnd
  by_cases hav : env.isSupabaseAvailable = false
  · have h1 : syncLocalStorageToSupabase env t s = s := by
      simp only [syncLocalStorageToSupabase]; rw [if_pos hav]
    rw [h1]
    exact ⟨h1, rfl, fun h => h⟩
  · by_cases hemp : s.localAnalyses t = []
    · have h1 : syncLocalStorageToSupabase env t s = s := by
        simp only [syncLocalStorageToSupabase]; rw [if_neg hav, if_pos hemp]
      rw [h1]
      exact ⟨h1, rfl, fun h => h⟩
    · by_cases hok : env.remoteOk = true
      · have h1 : syncLocalStorageToSupabase env t s = { s with remote :=
            (((s.localAnalyses t).map AnalysisData.toRow).foldl upsertAnalysisRow s.remote) } := by
          simp only [syncLocalStorageToSupabase]; rw [if_neg hav, if_neg hemp, if_pos hok]
        have hndL : ((((s.localAnalyses t).map AnalysisData.toRow)).map (fun x => x.id)).Nodup := by
          rw [List.map_map]; exact hnd
        refine ⟨?_, by rw [h1], ?_⟩
        · rw [h1]
          have h2 : syncLocalStorageToSupabase env t ({ s with remote :=
              (((s.localAnalyses t).map AnalysisData.toRow).foldl upsertAnalysisRow s.remote) }) =
              { s with remote := (((s.localAnalyses t).map AnalysisData.toRow).foldl
                upsertAnalysisRow (((s.localAnalyses t).map AnalysisData.toRow).foldl
                  upsertAnalysisRow s.remote)) } := by
            simp only [syncLocalStorageToSupabase]; rw [if_neg hav, if_neg hemp, if_pos hok]
          rw [h2]
          exact congrArg (fun R => { s with remote := R })
            (foldl_upsert_replay ((s.localAnalyses t).map AnalysisData.toRow) s.remote hndL)
        · intro hR
          rw [h1]
          exact foldl_upsert_nodup ((s.localAnalyses t).map AnalysisData.toRow) s.remote hR
      · have h1 : syncLocalStorageToSupabase env t s = s := by
          simp only [syncLocalStorageToSupabase]; rw [if_neg hav, if_neg hemp, if_neg hok]
        rw [h1]
        exact ⟨h1, rfl, fun h => h⟩

/-- Witness for `syncLocalStorageToSupabase_idempotent` on a store whose
tenant `t0` cache holds the single record `a0`. -/
theorem syncLocalStorageToSupabase_idempotent_witness :
    syncLocalStorageToSupabase envRemote "t0" (syncLocalStorageToSupabase envRemote "t0" s9) =
      syncLocalStorageToSupabase envRemote "t0" s9 ∧
    (syncLocalStorageToSupabase envRemote "t0" s9).localAnalyses = s9.localAnalyses :=
  ⟨(syncLocalStorageToSupabase_idempotent envRemote "t0" s9 (by simp [s9])).1,
   (syncLocalStorageToSupabase_idempotent envRemote "t0" s9 (by simp [s9])).2.1⟩
